import Mathlib

/-!
Verification development for the augmented streaming completion pipeline of the
`ai-chat` repository.  The embedded code is translated from:

* `src/app/api/v1/chat/completions/route.ts`  (the live route: prelude,
  inline Ollama-to-OpenAI transcoder, persistence side channel),
* `src/unnamed/part_018`                       (the variant of the same route
  whose persistence is guarded by an inner try/catch),
* `src/lib/stream.ts`                          (`OllamaToOpenAIStream.transform`),
* `src/lib/web-search.ts`                      (`searchWeb` provider chain),
* `src/lib/tool-detection.ts`                  (absent from the sources; its
  `detectSearchIntent` is modelled from the specification, §4.2).

Byte chunks arriving from the backend are modelled as `List Char` (the text
produced by `decoder.decode(value, ..)`; the `TextDecoder` instance keeps
partial UTF-8 sequences internally, so a chunk boundary in the model is a
character boundary).  `JSON.parse` plus the field reads
`ollamaData.message?.content` / `ollamaData.response` / `ollamaData.done` are
abstracted as a parse function handed to the model; theorems quantify over all
such functions, and concrete instances used in witnesses record the value
`JSON.parse` yields on the given line.
-/

namespace AIChat

/-! ### `buffer.split('\n')` with `lines.pop()`

`linesRem l = (complete, rest)` where `complete` is every element of
`l.split('\n')` except the last, and `rest` is the last (the part after the
final newline, kept as the new buffer). -/

def linesRem : List Char → List (List Char) × List Char
  | [] => ([], [])
  | c :: rest =>
    if c = '\n' then ([] :: (linesRem rest).1, (linesRem rest).2)
    else
      match linesRem rest with
      | ([], r) => ([], c :: r)
      | (l :: ls, r) => ((c :: l) :: ls, r)

/-- The JavaScript `buffer.split('\n')` (always a non-empty array). -/
def splitNL : List Char → List (List Char)
  | [] => [[]]
  | c :: rest =>
    if c = '\n' then [] :: splitNL rest
    else
      match splitNL rest with
      | [] => [[c]]
      | l :: ls => (c :: l) :: ls

/-! ### Data model -/

/-- Interface `SearchResult` from `src/lib/web-search.ts` (the optional scraped `content`
field is never produced by the three providers and is elided). -/
structure SearchResult where
  title : String
  url : String
  snippet : String
deriving DecidableEq

/-- Interface `Citation` from `src/lib/web-search.ts`. -/
structure Citation where
  id : String
  title : String
  url : String
  snippet : String
  usedInResponse : Bool
deriving DecidableEq, Repr

/-- Result of `JSON.parse(line)` followed by the route loop's field reads:
`content` is `ollamaData.message?.content` coerced to a string (`""` when the
field is absent, which is falsy exactly like the empty string), `done` is the
truthiness of `ollamaData.done`. -/
structure OllamaChatLine where
  content : String
  done : Bool
deriving DecidableEq

/-- Result of `JSON.parse(line)` in `OllamaToOpenAIStream.transform`
(`src/lib/stream.ts`), which reads `ollamaData.response` and
`ollamaData.done`. -/
structure OllamaGenLine where
  response : String
  done : Bool
deriving DecidableEq

/-- A `JSON.parse` on a complete line: `none` models a thrown `SyntaxError`
(the line is logged and skipped). -/
abbrev ChatParse := List Char → Option OllamaChatLine

/-- Same, for the generate-format transcoder in `src/lib/stream.ts`. -/
abbrev GenParse := List Char → Option OllamaGenLine

/-- One wire frame written to the client (each a `data: <json>\n\n` event). -/
inductive Frame where
  /-- route.ts metadata chunk `\x7bconversationId\x7d`. -/
  | metaConv (cid : String)
  /-- route.ts citations chunk `\x7bcitations\x7d`. -/
  | metaCitations (cs : List Citation)
  /-- part_018 combined metadata chunk `\x7bconversationId, isSearching:false, citations\x7d`. -/
  | metaConvFull (cid : String) (cs : List Citation)
  /-- part_018 citations-only chunk for existing conversations. -/
  | metaCitationsOnly (cs : List Citation)
  /-- part_018 search-status chunk `\x7bisSearching:true, searchMessage\x7d`. -/
  | searching (msg : String)
  /-- A chat-completion chunk whose `delta` carries `content` (and possibly a
  `role`), with the given `finish_reason` (`none` is JSON `null`). -/
  | delta (role : Option String) (content : String) (finish : Option String)
  /-- The final chunk: empty `delta`, `finish_reason: "stop"`. -/
  | stop
  /-- The terminal sentinel line `data: [DONE]`. -/
  | done
deriving DecidableEq, Repr

/-- An observable event on the backend reader: a decoded chunk of text, or a
read that rejects (mid-stream I/O failure).  Exhaustion of the list models
`done=true` from `reader.read()`. -/
inductive ReadEvent where
  | chunk (text : List Char)
  | ioError
deriving DecidableEq

/-- The check `line.trim()` is falsy exactly when the line is all whitespace. -/
def isBlankLine (l : List Char) : Bool := l.all (fun c => c.isWhitespace)

/-- JavaScript `String.prototype.trim()`: strip whitespace from both ends
(character-level, structurally recursive so that concrete runs reduce). -/
def jsTrim (s : String) : String :=
  ⟨(((s.data.dropWhile Char.isWhitespace).reverse).dropWhile Char.isWhitespace).reverse⟩

/-- JavaScript `String.prototype.toLowerCase()` (character-level). -/
def lowerStr (s : String) : String := ⟨s.data.map Char.toLower⟩

/-- JavaScript falsiness of the optional `conversationId` request field:
absent or the empty string. -/
def convIdFalsy : Option String → Bool
  | none => true
  | some s => s == ""

/-! ### route.ts — the inline transcoder of `POST` -/

/-- The apology content delta enqueued by route.ts's outer stream catch. -/
def routeApologyMsg : String := "Sorry, I encountered an error processing your request."

/-- Frames of route.ts's stream `catch` block: one apology delta with
`finish_reason: 'stop'` and the sentinel (then `controller.close()`). -/
def routeCatch : List Frame :=
  [Frame.delta none routeApologyMsg (some "stop"), Frame.done]

/-- The `for (const line of lines)` body of route.ts (lines 353–380): skip
blank lines, skip lines whose parse throws, and for each parsed line whose
`message?.content` is truthy append the content to `assistantContent` and
emit a delta (no `role` field; `finish_reason` is `'stop'` iff the line's
`done` is truthy).  Returns the emitted frames and the updated accumulator. -/
def routeProcLines (parse : ChatParse) : List (List Char) → String → List Frame × String
  | [], acc => ([], acc)
  | l :: ls, acc =>
    if isBlankLine l then routeProcLines parse ls acc
    else
      match parse l with
      | none => routeProcLines parse ls acc
      | some d =>
        if d.content = "" then routeProcLines parse ls acc
        else
          let fr := Frame.delta none d.content (if d.done then some "stop" else none)
          let r := routeProcLines parse ls (acc ++ d.content)
          (fr :: r.1, r.2)

/-- The `if (done)` branch of route.ts (lines 304–345): when the trimmed
accumulator is non-empty, `prisma.message.create` runs first (failure —
`createOk = false` — throws into the outer catch with nothing stored), then
`prisma.conversation.update` (failure — `updateOk = false` — also throws into
the outer catch, but the assistant message is already persisted).  Only when
both succeed do the final chunk and the sentinel follow.  Returns the frames,
the persisted assistant content (`none` when nothing was stored), and the
final value of `assistantContent`. -/
def routeDone (createOk updateOk : Bool) (acc : String) :
    List Frame × Option String × String :=
  if jsTrim acc = "" then ([Frame.stop, Frame.done], none, acc)
  else if createOk then
    if updateOk then ([Frame.stop, Frame.done], some (jsTrim acc), acc)
    else (routeCatch, some (jsTrim acc), acc)
  else (routeCatch, none, acc)

/-- The `while (true)` read loop of route.ts with its surrounding `try/catch`,
over the reader's events, carrying the line buffer and `assistantContent`.
The result also exposes the final value of `assistantContent`. -/
def routeLoop (parse : ChatParse) (createOk updateOk : Bool) :
    List Char → String → List ReadEvent → List Frame × Option String × String
  | _, acc, [] => routeDone createOk updateOk acc
  | _, acc, ReadEvent.ioError :: _ => (routeCatch, none, acc)
  | buf, acc, ReadEvent.chunk c :: rest =>
    let p := linesRem (buf ++ c)
    let q := routeProcLines parse p.1 acc
    let r := routeLoop parse createOk updateOk p.2 q.2 rest
    (q.1 ++ r.1, r.2)

/-- The metadata frames route.ts enqueues before the read loop (lines
284–298): the conversation id when the request's `conversationId` was falsy
and the (freshly created) current id is truthy, then the citations chunk when
search produced results. -/
def routePre (reqConvId : Option String) (newId : String) (cits : List Citation) : List Frame :=
  (if convIdFalsy reqConvId && !(newId == "") then [Frame.metaConv newId] else [])
    ++ (if cits.length > 0 then [Frame.metaCitations cits] else [])

/-- The whole client stream of route.ts's `POST` for one turn, given the
parse function, the request's `conversationId`, the id a created conversation
would get, the citations from the search phase, whether the message create
and the conversation recency update succeed, and the backend reader's
events.  Yields the emitted frames in order, the persisted assistant message
content, and the final accumulated `assistantContent`. -/
def routeRun (parse : ChatParse) (reqConvId : Option String) (newId : String)
    (cits : List Citation) (createOk updateOk : Bool) (events : List ReadEvent) :
    List Frame × Option String × String :=
  let r := routeLoop parse createOk updateOk [] "" events
  (routePre reqConvId newId cits ++ r.1, r.2)

/-! ### part_018 — the variant route (`src/unnamed/part_018`) -/

/-- The error content delta of part_018's stream catch block. -/
def p18ErrorMsg : String := "\n\n[Error: Failed to complete response. Please try again.]"

/-- Frames of part_018's inner stream `catch`: error delta with
`finish_reason: 'stop'`, sentinel, close. -/
def p18Catch : List Frame := [Frame.delta none p18ErrorMsg (some "stop"), Frame.done]

/-- The search-status message of part_018. -/
def p18SearchMsg : String := "Searching the web for current information..."

/-- The line loop of part_018 (lines 300–331): like route.ts's, but after a
line whose `done` is truthy the `for` loop `break`s, so the remaining lines
of the current chunk are skipped (the `while` read loop itself continues). -/
def p18ProcLines (parse : ChatParse) : List (List Char) → String → List Frame × String
  | [], acc => ([], acc)
  | l :: ls, acc =>
    if isBlankLine l then p18ProcLines parse ls acc
    else
      match parse l with
      | none => p18ProcLines parse ls acc
      | some d =>
        if d.content = "" then
          if d.done then ([], acc) else p18ProcLines parse ls acc
        else
          let fr := Frame.delta none d.content (if d.done then some "stop" else none)
          if d.done then ([fr], acc ++ d.content)
          else
            let r := p18ProcLines parse ls (acc ++ d.content)
            (fr :: r.1, r.2)

/-- The `if (done)` branch of part_018 (lines 244–292): the persistence pair
is wrapped in its own `try/catch`, so either storage failure is logged and
the final chunk and sentinel are still emitted.  A failing create
(`createOk = false`) leaves nothing stored; a failing recency update
(`updateOk = false`) after a successful create leaves the assistant message
stored and is otherwise invisible in both observables. -/
def p18Done (createOk _updateOk : Bool) (acc : String) : List Frame × Option String :=
  if jsTrim acc = "" then ([Frame.stop, Frame.done], none)
  else ([Frame.stop, Frame.done], if createOk then some (jsTrim acc) else none)

/-- The read loop of part_018 with its inner `try/catch`. -/
def p18Loop (parse : ChatParse) (createOk updateOk : Bool) :
    List Char → String → List ReadEvent → List Frame × Option String
  | _, acc, [] => p18Done createOk updateOk acc
  | _, _, ReadEvent.ioError :: _ => (p18Catch, none)
  | buf, acc, ReadEvent.chunk c :: rest =>
    let p := linesRem (buf ++ c)
    let q := p18ProcLines parse p.1 acc
    let r := p18Loop parse createOk updateOk p.2 q.2 rest
    (q.1 ++ r.1, r.2)

/-- The metadata frames part_018 enqueues before its read loop (lines
213–237): a combined conversation-id/citations chunk for a created
conversation, otherwise a citations-only chunk when search produced results;
then a search-status chunk when a search ran. -/
def p18Pre (reqConvId : Option String) (newId : String) (cits : List Citation)
    (isSearching : Bool) : List Frame :=
  (if convIdFalsy reqConvId && !(newId == "") then [Frame.metaConvFull newId cits]
   else if cits.length > 0 then [Frame.metaCitationsOnly cits] else [])
    ++ (if isSearching then [Frame.searching p18SearchMsg] else [])

/-- The whole client stream of part_018's `POST` for one turn. -/
def p18Run (parse : ChatParse) (reqConvId : Option String) (newId : String)
    (cits : List Citation) (isSearching : Bool) (createOk updateOk : Bool)
    (events : List ReadEvent) : List Frame × Option String :=
  let r := p18Loop parse createOk updateOk [] "" events
  (p18Pre reqConvId newId cits isSearching ++ r.1, r.2)

/-! ### stream.ts — `OllamaToOpenAIStream.transform` -/

/-- The per-line processing of `transform` (lines 90–121): every parsed line
is emitted (no content check), the first parsed line carries
`role: 'assistant'`, and a truthy `done` emits the sentinel and returns from
`start` at once.  Returns `(frames, isFirstChunk after, returned?)`. -/
def tProcLines (parse : GenParse) (isFirst : Bool) :
    List (List Char) → List Frame × Bool × Bool
  | [] => ([], isFirst, false)
  | l :: ls =>
    if isBlankLine l then tProcLines parse isFirst ls
    else
      match parse l with
      | none => tProcLines parse isFirst ls
      | some d =>
        let fr := Frame.delta (if isFirst then some "assistant" else none) d.response
          (if d.done then some "stop" else none)
        if d.done then ([fr, Frame.done], false, true)
        else
          let r := tProcLines parse false ls
          (fr :: r.1, r.2.1, r.2.2)

/-- The read loop of `transform` with its `try/catch`: reader exhaustion
yields the final chunk plus the sentinel; an I/O failure reaches the catch
which calls `controller.error(error)` — no frames, stream errored. -/
def tLoop (parse : GenParse) :
    Bool → List Char → List ReadEvent → List Frame × Bool
  | _, _, [] => ([Frame.stop, Frame.done], false)
  | _, _, ReadEvent.ioError :: _ => ([], true)
  | isFirst, buf, ReadEvent.chunk c :: rest =>
    let p := linesRem (buf ++ c)
    let t := tProcLines parse isFirst p.1
    if t.2.2 then (t.1, false)
    else
      let r := tLoop parse t.2.1 p.2 rest
      (t.1 ++ r.1, r.2)

/-- The output stream of `OllamaToOpenAIStream.transform`: the frames emitted
in order, and whether the stream was terminated with `controller.error`. -/
def transformRun (parse : GenParse) (events : List ReadEvent) : List Frame × Bool :=
  tLoop parse true [] events

/-- Check whether processing the given chunks makes `transform` return early
on a line with a truthy `done` flag. -/
def tStops (parse : GenParse) : Bool → List Char → List (List Char) → Bool
  | _, _, [] => false
  | isFirst, buf, c :: cs =>
    let p := linesRem (buf ++ c)
    let t := tProcLines parse isFirst p.1
    if t.2.2 then true else tStops parse t.2.1 p.2 cs

/-- Is the reader event a rejected read? -/
def isErrEvent : ReadEvent → Bool
  | ReadEvent.ioError => true
  | _ => false

/-- Does the reader fail at some point of the turn? -/
def hasErr (events : List ReadEvent) : Bool := events.any isErrEvent

/-- Reference form of the route loop: all input delivered as one chunk (the
lines of `s`, processed in one go, then the `done` branch). -/
def routeFlat (parse : ChatParse) (createOk updateOk : Bool) (s : List Char) (acc : String) :
    List Frame × Option String × String :=
  let p := linesRem s
  let q := routeProcLines parse p.1 acc
  (q.1 ++ (routeDone createOk updateOk q.2).1, (routeDone createOk updateOk q.2).2)

/-- Reference form of the `transform` loop: all input delivered as one chunk. -/
def tFlat (parse : GenParse) (isFirst : Bool) (s : List Char) : List Frame × Bool :=
  let t := tProcLines parse isFirst (linesRem s).1
  if t.2.2 then (t.1, false) else (t.1 ++ [Frame.stop, Frame.done], false)

/-! ### Frame predicates -/

/-- Is this the terminal sentinel `data: [DONE]`? -/
def isDoneFrame : Frame → Bool
  | Frame.done => true
  | _ => false

/-- Is this a chunk with `finish_reason: 'stop'` (a content delta so marked,
or the empty final chunk)? -/
def isTermStop : Frame → Bool
  | Frame.delta _ _ (some "stop") => true
  | Frame.stop => true
  | _ => false

/-- Is this a delta frame carrying content? -/
def isContentDelta : Frame → Bool
  | Frame.delta _ _ _ => true
  | _ => false

/-- Does this frame carry the conversation id? -/
def isConvMetaFrame : Frame → Bool
  | Frame.metaConv _ => true
  | Frame.metaConvFull _ _ => true
  | _ => false

/-- No sentinel anywhere in the list. -/
def doneFree (fs : List Frame) : Bool := fs.all (fun f => !(isDoneFrame f))

/-- Exactly one terminal sentinel, and it is the last frame (nothing of any
kind is emitted after it). -/
def sentinelOnceLast (fs : List Frame) : Bool :=
  match fs.reverse with
  | [] => false
  | f :: rest => isDoneFrame f && doneFree rest

/-- The stream ends with a `finish_reason: 'stop'` chunk immediately followed
by the terminal sentinel. -/
def endsTerminal (fs : List Frame) : Bool :=
  match fs.reverse with
  | g :: f :: _ => isDoneFrame g && isTermStop f
  | _ => false

/-- Concatenation, in emission order, of the payloads of all content delta
frames. -/
def deltaConcat : List Frame → String
  | [] => ""
  | Frame.delta _ c _ :: rest => c ++ deltaConcat rest
  | _ :: rest => deltaConcat rest

/-- The role marker of the first content delta of the stream, when one
exists. -/
def firstDeltaRole (fs : List Frame) : Option (Option String) :=
  (fs.filterMap (fun f =>
    match f with
    | Frame.delta r _ _ => some r
    | _ => none)).head?

/-- Check the role discipline from the given `isFirstChunk` state: while the
flag is up the next delta must carry `role: 'assistant'`, and every delta
after the first carries no role. -/
def rolesOk : Bool → List Frame → Bool
  | _, [] => true
  | isF, Frame.delta r _ _ :: rest =>
    (r == (if isF then some "assistant" else none)) && rolesOk false rest
  | isF, _ :: rest => rolesOk isF rest

/-! ### web-search.ts — `searchWeb` provider chain

The three providers (`searchWithDuckDuckGo`, `searchWithBrave`,
`searchWithSearX`) perform network scraping; each call is modelled as an
oracle outcome: it either resolves with a result list or rejects (throws /
times out).  The list models the fixed `searchMethods` array, in its source
order. -/

inductive ProviderOutcome where
  | ok (rs : List SearchResult)
  | err
deriving DecidableEq

/-- The `for (const searchMethod of searchMethods)` loop of `searchWeb`
(`src/lib/web-search.ts` lines 33–46): a throwing provider is caught and the
next is tried; a provider returning a non-empty list is returned at once;
after the loop, `[]`.  Returns the results and how many providers were
invoked. -/
def searchWebRun : List ProviderOutcome → List SearchResult × Nat
  | [] => ([], 0)
  | ProviderOutcome.err :: rest =>
    let r := searchWebRun rest
    (r.1, r.2 + 1)
  | ProviderOutcome.ok rs :: rest =>
    if rs.length > 0 then (rs, 1)
    else
      let r := searchWebRun rest
      (r.1, r.2 + 1)

/-- Index and results of the first provider that resolves with at least one
result (the behaviour the specification prescribes). -/
def firstHit : List ProviderOutcome → Option (Nat × List SearchResult)
  | [] => none
  | ProviderOutcome.err :: rest => (firstHit rest).map (fun p => (p.1 + 1, p.2))
  | ProviderOutcome.ok rs :: rest =>
    if rs.length > 0 then some (0, rs)
    else (firstHit rest).map (fun p => (p.1 + 1, p.2))

/-! ### route.ts — the request prelude before the stream (lines 67–265) -/

/-- The observable storage/network actions of route.ts's `POST` before the
client stream starts. -/
inductive Effect where
  /-- `prisma.conversation.create` for a falsy `conversationId`. -/
  | createConv
  /-- `prisma.message.create` for the inbound user message (content
  normalisation for file attachments elided — it does not affect ordering). -/
  | persistUser
  /-- The `searchWeb` call (wrapped in its own try/catch). -/
  | searchFx
  /-- The `fetch` to the Ollama backend. -/
  | dispatchFx
deriving DecidableEq, Repr

/-- The ordered effect trace of route.ts's `POST` up to and including the
backend dispatch: create the conversation when the request carried no (truthy)
id, persist the last message when its role is `user`, run the search when the
heuristic fired, then dispatch.  `doSearch` stands for
`shouldPerformWebSearch(...).shouldSearch`. -/
def routePreludeTrace (reqConvId : Option String) (lastRole : String)
    (doSearch : Bool) : List Effect :=
  (if convIdFalsy reqConvId then [Effect.createConv] else [])
    ++ (if lastRole == "user" then [Effect.persistUser] else [])
    ++ (if lastRole == "user" && doSearch then [Effect.searchFx] else [])
    ++ [Effect.dispatchFx]

/-- The HTTP status route.ts returns when the backend dispatch is not ok
(`!ollamaResponse.ok` → 503), `none` when the stream proceeds. -/
def routeDispatchStatus (dispatchOk : Bool) : Option Nat :=
  if dispatchOk then none else some 503

/-! ### tool-detection.ts — the intent classifier

The module's source is the second document inside `src/ecosystem.config.js`
(`detectSearchIntent`, `analyzeSearchNeed`, `checkIfNeedsCurrent`,
`extractSearchQuery`).  Its regular expressions are transliterated into the
small executable pattern language `Rx` below; `rxTest` implements
`pattern.test(message)` — a match anywhere in the string, with literals
compared case-insensitively, mirroring the `/i` flag carried by every
pattern except the two noted case-sensitive classes. -/

structure SearchIntent where
  shouldSearch : Bool
  searchQuery : Option String
  confidence : ℚ
deriving DecidableEq

/-- Message for one conversation turn (`ChatMessage` of the route). -/
structure ChatMessage where
  role : String
  content : String
deriving DecidableEq

/-- Does the pattern occur as a contiguous run inside the text? -/
def isInfixChars (p : List Char) : List Char → Bool
  | [] => p.isEmpty
  | c :: t => List.isPrefixOf p (c :: t) || isInfixChars p t

/-- Case-insensitive containment of a phrase in the message
(JavaScript `message.toLowerCase().includes(w)`). -/
def containsLower (m w : String) : Bool := isInfixChars w.toList (lowerStr m).toList

/-- A word character for `\w` and `\b`: `[A-Za-z0-9_]`. -/
def isWordChar (c : Char) : Bool := c.isAlphanum || c == '_'

/-- The pattern language covering the regexes of tool-detection.ts. -/
inductive Rx where
  /-- A literal, compared case-insensitively (`/i`). -/
  | lit (s : String)
  | alt (a b : Rx)
  /-- `a?` -/
  | opt (a : Rx)
  /-- `.{0,n}` — up to `n` characters other than line terminators. -/
  | gap (n : Nat)
  | seq (a b : Rx)
  /-- `\b` -/
  | wordB
  /-- `\s+` -/
  | wsPlus
  /-- `\s*` -/
  | wsStar
  /-- `\w+` -/
  | wordPlus
  /-- `\d+` -/
  | digitPlus
  /-- `[A-Z]` under `/i`: any ASCII letter. -/
  | alphaChar
  /-- `[a-z]+` under `/i`: one or more ASCII letters. -/
  | alphaPlus
  /-- `[A-Z]` (case-sensitive). -/
  | upperChar
  /-- `[a-z]+` (case-sensitive). -/
  | lowerPlus

/-- Consume the literal (case-insensitively), then continue. -/
def litHere : List Char → Option Char → List Char → (Option Char → List Char → Bool) → Bool
  | [], prev, s, k => k prev s
  | _ :: _, _, [], _ => false
  | c :: cs, _, x :: xs, k => (x.toLower == c.toLower) && litHere cs (some x) xs k

/-- Consume between 0 and `n` non-line-terminator characters, then continue
(the backtracking of `.{0,n}` as an existential). -/
def gapHere : Nat → Option Char → List Char → (Option Char → List Char → Bool) → Bool
  | 0, prev, s, k => k prev s
  | n + 1, prev, s, k =>
    k prev s ||
      match s with
      | [] => false
      | x :: xs => !(x == '\n' || x == '\r') && gapHere n (some x) xs k

/-- Consume exactly one character of the class, then continue. -/
def oneHere (p : Char → Bool) :
    Option Char → List Char → (Option Char → List Char → Bool) → Bool
  | _, [], _ => false
  | _, x :: xs, k => p x && k (some x) xs

/-- Consume zero or more characters of the class, then continue. -/
def starHere (p : Char → Bool) :
    Option Char → List Char → (Option Char → List Char → Bool) → Bool
  | prev, [], k => k prev []
  | prev, x :: xs, k => k prev (x :: xs) || (p x && starHere p (some x) xs k)

/-- Consume one or more characters of the class, then continue. -/
def plusHere (p : Char → Bool) (prev : Option Char) (s : List Char)
    (k : Option Char → List Char → Bool) : Bool :=
  oneHere p prev s (fun p2 t => starHere p p2 t k)

/-- Is the position between `prev` and the head of `s` a `\b` boundary? -/
def atWordBoundary (prev : Option Char) (s : List Char) : Bool :=
  (match prev with | some c => isWordChar c | none => false) !=
    (match s with | x :: _ => isWordChar x | [] => false)

/-- Match the pattern at this position, calling the continuation on the
remainder.  `prev` is the character before the position (for `\b`). -/
def rxMatch : Rx → Option Char → List Char → (Option Char → List Char → Bool) → Bool
  | Rx.lit str, prev, s, k => litHere str.data prev s k
  | Rx.alt a b, prev, s, k => rxMatch a prev s k || rxMatch b prev s k
  | Rx.opt a, prev, s, k => k prev s || rxMatch a prev s k
  | Rx.gap n, prev, s, k => gapHere n prev s k
  | Rx.seq a b, prev, s, k => rxMatch a prev s (fun p t => rxMatch b p t k)
  | Rx.wordB, prev, s, k => atWordBoundary prev s && k prev s
  | Rx.wsPlus, prev, s, k => plusHere Char.isWhitespace prev s k
  | Rx.wsStar, prev, s, k => starHere Char.isWhitespace prev s k
  | Rx.wordPlus, prev, s, k => plusHere isWordChar prev s k
  | Rx.digitPlus, prev, s, k => plusHere Char.isDigit prev s k
  | Rx.alphaChar, prev, s, k => oneHere Char.isAlpha prev s k
  | Rx.alphaPlus, prev, s, k => plusHere Char.isAlpha prev s k
  | Rx.upperChar, prev, s, k => oneHere Char.isUpper prev s k
  | Rx.lowerPlus, prev, s, k => plusHere Char.isLower prev s k

/-- Try a match at each position of the string. -/
def rxSearch (r : Rx) : Option Char → List Char → Bool
  | prev, [] => rxMatch r prev [] (fun _ _ => true)
  | prev, x :: xs => rxMatch r prev (x :: xs) (fun _ _ => true) || rxSearch r (some x) xs

/-- JavaScript `pattern.test(message)`. -/
def rxTest (r : Rx) (m : String) : Bool := rxSearch r none m.data

/-- An alternation of literals, e.g. `(weather|temperature|forecast)`. -/
def oneOfLits (s : String) (rest : List String) : Rx :=
  rest.foldl (fun r t => Rx.alt r (Rx.lit t)) (Rx.lit s)

/-- A literal with an optional trailing `s`, e.g. `events?`. -/
def litOptS (s : String) : Rx := Rx.seq (Rx.lit s) (Rx.opt (Rx.lit "s"))

/-- The `highConfidencePatterns` array of `analyzeSearchNeed`, one `Rx` per
source regex, in source order. -/
def highConfidencePatterns : List Rx :=
  [Rx.seq (Rx.lit "what") (Rx.seq (Rx.gap 10)
      (oneOfLits "weather" ["temperature", "forecast"])),
   Rx.seq (Rx.lit "how") (Rx.seq (Rx.gap 10)
      (oneOfLits "weather" ["hot", "cold", "warm"])),
   Rx.seq (oneOfLits "current" ["today", "now", "latest", "recent"])
      (Rx.seq (Rx.gap 20)
        (Rx.alt (Rx.lit "news") (Rx.alt (litOptS "event") (Rx.lit "update")))),
   Rx.seq (Rx.lit "what") (Rx.seq (Rx.gap 10) (Rx.seq (Rx.lit "happening")
      (Rx.seq (Rx.gap 10) (oneOfLits "in" ["at", "with"])))),
   Rx.seq (oneOfLits "stock" ["price", "cost"]) (Rx.seq (Rx.gap 10)
      (Rx.seq (oneOfLits "of" ["for"]) (Rx.seq Rx.wsPlus Rx.wordPlus))),
   Rx.seq (Rx.lit "score") (Rx.seq (Rx.gap 10)
      (oneOfLits "game" ["match", "sport"])),
   Rx.seq (oneOfLits "hours" ["open", "closed"]) (Rx.seq (Rx.gap 10)
      (Rx.seq (oneOfLits "for" ["at"]) (Rx.seq Rx.wsPlus Rx.wordPlus))),
   Rx.seq (litOptS "direction") (Rx.seq (Rx.gap 10) (oneOfLits "to" ["from"])),
   Rx.seq Rx.wordB (Rx.seq (oneOfLits "2024"
      ["2025", "this year", "this month", "today", "tomorrow", "yesterday"]) Rx.wordB),
   Rx.seq (Rx.lit "is") (Rx.seq Rx.wsPlus (Rx.seq Rx.wordPlus
      (Rx.seq Rx.wsPlus (oneOfLits "open" ["closed"])))),
   Rx.seq (Rx.lit "find") (Rx.seq (Rx.gap 10)
      (Rx.seq (oneOfLits "information" ["details", "facts"])
        (Rx.seq (Rx.gap 10) (Rx.lit "about"))))]

/-- Does some high-confidence pattern match the message?  This is the `for`
loop of `analyzeSearchNeed` that returns confidence 0.9. -/
def highConfidenceTest (m : String) : Bool :=
  highConfidencePatterns.any (fun r => rxTest r m)

/-- A word-bounded four-digit run starting here (`\b\d{4}\b`). -/
def boundedYearAt (prev : Option Char) : List Char → Option (List Char)
  | a :: b :: c :: d :: rest =>
    if (!(match prev with | some p => isWordChar p | none => false))
        && a.isDigit && b.isDigit && c.isDigit && d.isDigit
        && !(match rest with | e :: _ => isWordChar e | [] => false)
    then some [a, b, c, d] else none
  | _ => none

/-- The first word-bounded four-digit run of the message
(`message.match(/\b\d{4}\b/)`), when one exists. -/
def firstBoundedYear : Option Char → List Char → Option (List Char)
  | _, [] => none
  | prev, x :: xs =>
    match boundedYearAt prev (x :: xs) with
    | some y => some y
    | none => firstBoundedYear (some x) xs

/-- The `mediumConfidenceIndicators` array of `analyzeSearchNeed`, in source
order: question word with a question mark; a location reference; a
word-bounded year absent from the history; a money amount; an entity noun
with a question mark. -/
def mediumConfidenceIndicators (message : String) (history : List ChatMessage) :
    List Bool :=
  [message.data.contains '?' && rxTest (Rx.seq Rx.wordB (Rx.seq
      (oneOfLits "who" ["what", "when", "where", "how much", "how many"]) Rx.wordB))
      message,
   rxTest (Rx.seq Rx.wordB (Rx.seq (oneOfLits "in" ["at", "near"])
      (Rx.seq Rx.wsPlus (Rx.seq Rx.alphaChar Rx.alphaPlus)))) message,
   (match firstBoundedYear none message.data with
    | some y => !(history.any (fun h => isInfixChars y h.content.data))
    | none => false),
   rxTest (Rx.alt (Rx.seq (Rx.lit "$") Rx.digitPlus)
      (Rx.seq Rx.digitPlus (Rx.seq Rx.wsStar
        (Rx.alt (litOptS "dollar") (Rx.alt (litOptS "euro") (litOptS "pound")))))) message,
   rxTest (Rx.seq Rx.wordB (Rx.seq
      (oneOfLits "company" ["product", "service", "website", "app"]) Rx.wordB)) message
      && message.data.contains '?']

/-- The `lowConfidenceIndicators` array of `analyzeSearchNeed`, in source
order (the proper-noun regex of the second entry is case-sensitive). -/
def lowConfidenceIndicators (message : String) : List Bool :=
  [rxTest (Rx.lit "tell me about") message,
   rxTest (Rx.lit "explain") message
      && rxTest (Rx.seq Rx.wordB (Rx.seq Rx.upperChar (Rx.seq Rx.lowerPlus Rx.wordB)))
        message,
   rxTest (Rx.seq (Rx.lit "what is") (Rx.seq Rx.wsPlus Rx.wordPlus)) message,
   rxTest (Rx.seq (Rx.lit "how does") (Rx.seq Rx.wsPlus Rx.wordPlus)) message,
   rxTest (Rx.seq Rx.wordB (Rx.seq (Rx.alt (litOptS "fact")
      (Rx.alt (Rx.lit "information") (litOptS "detail"))) Rx.wordB)) message]

/-- The `dynamicTopics` list of `checkIfNeedsCurrent`. -/
def dynamicTopics : List String :=
  ["weather", "temperature", "forecast", "rain", "snow", "storm",
   "news", "event", "happening", "update", "announce",
   "price", "cost", "stock", "market", "trading",
   "score", "game", "match", "tournament", "season",
   "traffic", "delay", "accident", "construction",
   "hours", "open", "closed", "schedule", "availability",
   "release", "launch", "available", "coming",
   "trend", "viral", "popular", "top"]

/-- `checkIfNeedsCurrent(message, history)`: some dynamic topic occurs in
the lowercased message (the source ignores its history parameter). -/
def checkIfNeedsCurrent (message : String) : Bool :=
  dynamicTopics.any (containsLower message)

/-- `analyzeSearchNeed(message, history)`: any high-confidence regex gives
0.9; otherwise at least two medium indicators give 0.7; otherwise at least
one low indicator on a message longer than 20 characters that touches a
dynamic topic gives 0.5; otherwise no search, confidence 0. -/
def analyzeSearchNeed (message : String) (history : List ChatMessage) : Bool × ℚ :=
  if highConfidenceTest message then (true, (9 : ℚ) / 10)
  else if 2 ≤ (mediumConfidenceIndicators message history).count true then
    (true, (7 : ℚ) / 10)
  else if 1 ≤ (lowConfidenceIndicators message).count true
      ∧ 20 < message.data.length ∧ checkIfNeedsCurrent message = true then
    (true, (1 : ℚ) / 2)
  else (false, 0)

/-- The leading question words of `extractSearchQuery`
(`/^(what|who|where|when|why|how|is|are|was|were|do|does|did|can|could|would|will)\s+/gi`;
anchored, so at most one strip happens). -/
def leadingQwords : List String :=
  ["what", "who", "where", "when", "why", "how", "is", "are", "was", "were",
   "do", "does", "did", "can", "could", "would", "will"]

/-- Case-insensitive prefix test. -/
def startsWithCI : List Char → List Char → Bool
  | [], _ => true
  | _ :: _, [] => false
  | c :: cs, x :: xs => (x.toLower == c.toLower) && startsWithCI cs xs

/-- Strip one leading question word followed by whitespace (the whitespace
run is consumed greedily by `\s+`), when present; the alternation is tried in
source order. -/
def stripLeadingQword (cs : List Char) : List Char :=
  match leadingQwords.find? (fun w =>
      startsWithCI w.data cs &&
        (match cs.drop w.data.length with
         | c :: _ => c.isWhitespace
         | [] => false)) with
  | some w => (cs.drop w.data.length).dropWhile Char.isWhitespace
  | none => cs

/-- Strip a single trailing question mark (`replace(/\?$/, '')`). -/
def stripTrailingQmark (cs : List Char) : List Char :=
  match cs.getLast? with
  | some '?' => cs.dropLast
  | _ => cs

/-- The stopwords dropped during long-query keyword extraction
(`/^(the|and|but|for|with|from|about|that|this|these|those)$/i`). -/
def queryStopwords : List String :=
  ["the", "and", "but", "for", "with", "from", "about", "that", "this",
   "these", "those"]

/-- Joining words with single spaces (JavaScript `join(' ')`). -/
def joinSpace : List (List Char) → List Char
  | [] => []
  | [w] => w
  | w :: ws => w ++ ' ' :: joinSpace ws

/-- `extractSearchQuery(message)`: strip one leading question word and a
trailing question mark, trim; if the query exceeds 100 characters keep the
first 8 words longer than 3 characters that are not stopwords; and for a
weather-type message whose query lacks `in`/`at`/`for` anywhere, fall back
to the original message without its trailing question mark. -/
def extractSearchQuery (message : String) : String :=
  let q : String := jsTrim ⟨stripTrailingQmark (stripLeadingQword message.data)⟩
  let q : String :=
    if 100 < q.data.length then
      ⟨joinSpace (((q.data.splitOnP (fun c => c.isWhitespace)).filter (fun w =>
          3 < w.length &&
            !((queryStopwords.map String.data).contains (w.map Char.toLower)))).take 8)⟩
    else q
  if (containsLower message "weather" || containsLower message "temperature"
        || containsLower message "forecast")
      && !(containsLower q "in" || containsLower q "at" || containsLower q "for") then
    jsTrim ⟨stripTrailingQmark message.data⟩
  else q

/-- `detectSearchIntent(userMessage, conversationHistory)` from
tool-detection.ts: run `analyzeSearchNeed`; on a hit, return the extracted
query with the tier's confidence; otherwise no search, no query, confidence
0. -/
def detectSearchIntent (userMessage : String) (conversationHistory : List ChatMessage) :
    SearchIntent :=
  let needsSearch := analyzeSearchNeed userMessage conversationHistory
  if needsSearch.1 then
    ⟨true, some (extractSearchQuery userMessage), needsSearch.2⟩
  else ⟨false, none, 0⟩

/-! ### Concrete inputs for witnesses and counterexamples

Each concrete parse function records the value `JSON.parse` yields on the
given backend line (and rejects everything else, as `JSON.parse` throws on a
truncated line). -/

/-- The backend line `\x7b"message":\x7b"content":"Hi "\x7d,"done":false\x7d`. -/
def exLineHi : List Char :=
  "\x7b\"message\":\x7b\"content\":\"Hi \"\x7d,\"done\":false\x7d".toList

/-- The backend line `\x7b"message":\x7b"content":"A"\x7d,"done":true\x7d`. -/
def exLineA : List Char :=
  "\x7b\"message\":\x7b\"content\":\"A\"\x7d,\"done\":true\x7d".toList

/-- The backend line `\x7b"message":\x7b"content":"B"\x7d,"done":false\x7d`. -/
def exLineB : List Char :=
  "\x7b\"message\":\x7b\"content\":\"B\"\x7d,\"done\":false\x7d".toList

/-- `JSON.parse` on the single line `exLineHi`. -/
def exParseHi : ChatParse := fun l =>
  if l = exLineHi then some ⟨"Hi ", false⟩ else none

/-- `JSON.parse` on the two lines `exLineA` (done) and `exLineB`. -/
def exParseAB : ChatParse := fun l =>
  if l = exLineA then some ⟨"A", true⟩
  else if l = exLineB then some ⟨"B", false⟩
  else none

/-- One chunk carrying the `Hi ` line and its newline. -/
def exChunkHi : List Char := exLineHi ++ ['\n']

/-- One chunk carrying the done-flagged `A` line followed by the `B` line. -/
def exChunkAB : List Char := exLineA ++ '\n' :: (exLineB ++ ['\n'])

/-- The generate-format line `\x7b"response":"A","done":true\x7d`. -/
def exGenLineA : List Char := "\x7b\"response\":\"A\",\"done\":true\x7d".toList

/-- `JSON.parse` on the single generate-format line `exGenLineA`. -/
def exGenParseA : GenParse := fun l =>
  if l = exGenLineA then some ⟨"A", true⟩ else none

/-- A parse that accepts no line at all. -/
def exGenParseNone : GenParse := fun _ => none

/-! ## Supporting lemmas -/

/-- The function `linesRem` is exactly `split('\n')` with the last element popped off:
the split is the complete lines followed by the remainder. -/
theorem splitNL_eq_linesRem (l : List Char) :
    splitNL l = (linesRem l).1 ++ [(linesRem l).2] := by
  induction l with
  | nil => simp [splitNL, linesRem]
  | cons c rest ih =>
    by_cases hc : c = '\n'
    · simp [splitNL, linesRem, hc, ih]
    · rcases h : linesRem rest with ⟨l1, r⟩
      rw [h] at ih
      cases l1 with
      | nil => simp [splitNL, linesRem, hc, h, ih]
      | cons a as => simp [splitNL, linesRem, hc, h, ih]

/-- The remainder kept in the buffer never contains a newline. -/
theorem rem_no_newline (l : List Char) : '\n' ∉ (linesRem l).2 := by
  induction l with
  | nil => simp [linesRem]
  | cons c rest ih =>
    by_cases hc : c = '\n'
    · simpa [linesRem, hc] using ih
    · rcases h : linesRem rest with ⟨l1, r⟩
      rw [h] at ih
      cases l1 with
      | nil =>
        simp [linesRem, hc, h]
        exact ⟨fun he => hc he.symm, by simpa using ih⟩
      | cons a as => simpa [linesRem, hc, h] using ih

/-- A newline-free string is all buffer: no complete line comes out of it. -/
theorem linesRem_of_no_newline (l : List Char) (h : '\n' ∉ l) :
    linesRem l = ([], l) := by
  induction l with
  | nil => simp [linesRem]
  | cons c rest ih =>
    have hc : ¬ c = '\n' := fun he => h (he ▸ List.mem_cons_self c rest)
    have hrest : '\n' ∉ rest := fun hm => h (List.mem_cons_of_mem c hm)
    simp [linesRem, hc, ih hrest]

/-- Splitting a concatenation: the complete lines of `a ++ b` are the complete
lines of `a` followed by the complete lines of `rem a ++ b`, and the final
remainder is that of `rem a ++ b`.  This is the fact that makes the
incremental buffering of the transcoder insensitive to chunk boundaries. -/
theorem linesRem_append (a b : List Char) :
    linesRem (a ++ b) =
      ((linesRem a).1 ++ (linesRem ((linesRem a).2 ++ b)).1,
       (linesRem ((linesRem a).2 ++ b)).2) := by
  induction a with
  | nil => simp [linesRem]
  | cons c a ih =>
    by_cases hc : c = '\n'
    · simp [linesRem, hc, ih]
    · rcases ha : linesRem a with ⟨l1, r⟩
      cases l1 with
      | nil =>
        rw [List.cons_append, linesRem, linesRem]
        simp only [hc, if_false, ha, ih]
        rcases hq : linesRem (r ++ b) with ⟨q1, q2⟩
        cases q1 with
        | nil => simp [linesRem, hc, hq]
        | cons x xs => simp [linesRem, hc, hq]
      | cons x xs =>
        rw [List.cons_append, linesRem, linesRem]
        simp only [hc, if_false, ha, ih]
        rcases hq : linesRem (r ++ b) with ⟨q1, q2⟩
        simp [linesRem, hc, hq]

/-! ### Frame-list lemmas -/

theorem doneFree_append (fs gs : List Frame) :
    doneFree (fs ++ gs) = (doneFree fs && doneFree gs) := by
  simp [doneFree, List.all_append]

theorem sentinelOnceLast_append (fs gs : List Frame) (h : doneFree fs = true) :
    sentinelOnceLast (fs ++ gs) = sentinelOnceLast gs := by
  unfold sentinelOnceLast
  rw [List.reverse_append]
  cases hg : gs.reverse with
  | nil =>
    have : gs = [] := by simpa using congrArg List.reverse hg
    subst this
    cases hf : fs.reverse with
    | nil => simp
    | cons f r =>
      have hmem : f ∈ fs := by
        have : f ∈ fs.reverse := hf ▸ List.mem_cons_self f r
        simpa using this
      have := (List.all_eq_true.mp h) f hmem
      simp_all
  | cons g r =>
    have hfr : doneFree fs.reverse = true := by
      simp only [doneFree] at h ⊢
      rw [List.all_eq_true] at h ⊢
      intro x hx
      exact h x (by simpa using hx)
    simp [hg, doneFree_append, hfr, Bool.and_assoc]

theorem endsTerminal_append (fs gs : List Frame) (h : endsTerminal gs = true) :
    endsTerminal (fs ++ gs) = true := by
  unfold endsTerminal at h ⊢
  rw [List.reverse_append]
  cases hg : gs.reverse with
  | nil => simp [hg] at h
  | cons g r =>
    cases r with
    | nil => simp [hg] at h
    | cons f r2 => simp [hg] at h ⊢; exact h

theorem deltaConcat_append (fs gs : List Frame) :
    deltaConcat (fs ++ gs) = deltaConcat fs ++ deltaConcat gs := by
  induction fs with
  | nil => simp [deltaConcat]
  | cons f fs ih =>
    cases f <;> simp [deltaConcat, ih, String.append_assoc]

theorem rolesOk_append (fs gs : List Frame) (isF : Bool)
    (h1 : rolesOk isF fs = true)
    (h2 : rolesOk (isF && !(fs.any isContentDelta)) gs = true) :
    rolesOk isF (fs ++ gs) = true := by
  induction fs generalizing isF with
  | nil => simpa using h2
  | cons f fs ih =>
    cases f with
    | delta r c fin =>
      simp only [rolesOk, Bool.and_eq_true] at h1
      simp only [List.cons_append, rolesOk, Bool.and_eq_true]
      refine ⟨h1.1, ih false h1.2 ?_⟩
      simpa [isContentDelta] using h2
    | metaConv cid => simp only [List.cons_append, rolesOk]
                      exact ih isF (by simpa [rolesOk] using h1)
                        (by simpa [isContentDelta] using h2)
    | metaCitations cs => simp only [List.cons_append, rolesOk]
                          exact ih isF (by simpa [rolesOk] using h1)
                            (by simpa [isContentDelta] using h2)
    | metaConvFull cid cs => simp only [List.cons_append, rolesOk]
                             exact ih isF (by simpa [rolesOk] using h1)
                               (by simpa [isContentDelta] using h2)
    | metaCitationsOnly cs => simp only [List.cons_append, rolesOk]
                              exact ih isF (by simpa [rolesOk] using h1)
                                (by simpa [isContentDelta] using h2)
    | searching msg => simp only [List.cons_append, rolesOk]
                       exact ih isF (by simpa [rolesOk] using h1)
                         (by simpa [isContentDelta] using h2)
    | stop => simp only [List.cons_append, rolesOk]
              exact ih isF (by simpa [rolesOk] using h1)
                (by simpa [isContentDelta] using h2)
    | done => simp only [List.cons_append, rolesOk]
              exact ih isF (by simpa [rolesOk] using h1)
                (by simpa [isContentDelta] using h2)

/-! ### route.ts line-loop lemmas -/

theorem routeProcLines_frames (parse : ChatParse) (ls : List (List Char)) (acc : String) :
    ∀ f ∈ (routeProcLines parse ls acc).1, ∃ c fin, f = Frame.delta none c fin := by
  induction ls generalizing acc with
  | nil => simp [routeProcLines]
  | cons l ls ih =>
    by_cases hb : isBlankLine l
    · simpa [routeProcLines, hb] using ih acc
    · cases hp : parse l with
      | none => simpa [routeProcLines, hb, hp] using ih acc
      | some d =>
        by_cases hcon : d.content = ""
        · simpa [routeProcLines, hb, hp, hcon] using ih acc
        · intro f hf
          simp only [routeProcLines, hb, hp, hcon, if_neg hcon, if_false, Bool.false_eq_true,
            List.mem_cons] at hf
          rcases hf with rfl | hf
          · exact ⟨d.content, _, rfl⟩
          · exact ih _ f hf

theorem routeProcLines_doneFree (parse : ChatParse) (ls : List (List Char)) (acc : String) :
    doneFree (routeProcLines parse ls acc).1 = true := by
  rw [doneFree, List.all_eq_true]
  intro f hf
  obtain ⟨c, fin, rfl⟩ := routeProcLines_frames parse ls acc f hf
  simp [isDoneFrame]

theorem routeProcLines_metaFree (parse : ChatParse) (ls : List (List Char)) (acc : String) :
    ((routeProcLines parse ls acc).1.all fun f => !(isConvMetaFrame f)) = true := by
  rw [List.all_eq_true]
  intro f hf
  obtain ⟨c, fin, rfl⟩ := routeProcLines_frames parse ls acc f hf
  simp [isConvMetaFrame]

theorem routeProcLines_rolesNone (parse : ChatParse) (ls : List (List Char)) (acc : String) :
    rolesOk false (routeProcLines parse ls acc).1 = true := by
  induction ls generalizing acc with
  | nil => simp [routeProcLines, rolesOk]
  | cons l ls ih =>
    by_cases hb : isBlankLine l
    · simpa [routeProcLines, hb] using ih acc
    · cases hp : parse l with
      | none => simpa [routeProcLines, hb, hp] using ih acc
      | some d =>
        by_cases hcon : d.content = ""
        · simpa [routeProcLines, hb, hp, hcon] using ih acc
        · simpa [routeProcLines, hb, hp, hcon, rolesOk] using ih (acc ++ d.content)

theorem routeProcLines_acc (parse : ChatParse) (ls : List (List Char)) (acc : String) :
    (routeProcLines parse ls acc).2 = acc ++ deltaConcat (routeProcLines parse ls acc).1 := by
  induction ls generalizing acc with
  | nil => simp [routeProcLines, deltaConcat]
  | cons l ls ih =>
    by_cases hb : isBlankLine l
    · simpa [routeProcLines, hb] using ih acc
    · cases hp : parse l with
      | none => simpa [routeProcLines, hb, hp] using ih acc
      | some d =>
        by_cases hcon : d.content = ""
        · simpa [routeProcLines, hb, hp, hcon] using ih acc
        · simp [routeProcLines, hb, hp, hcon, deltaConcat, ih (acc ++ d.content),
            String.append_assoc]

theorem routeProcLines_append (parse : ChatParse) (l1 l2 : List (List Char)) (acc : String) :
    routeProcLines parse (l1 ++ l2) acc =
      ((routeProcLines parse l1 acc).1 ++
        (routeProcLines parse l2 (routeProcLines parse l1 acc).2).1,
       (routeProcLines parse l2 (routeProcLines parse l1 acc).2).2) := by
  induction l1 generalizing acc with
  | nil => simp [routeProcLines]
  | cons l ls ih =>
    by_cases hb : isBlankLine l
    · simpa [routeProcLines, hb] using ih acc
    · cases hp : parse l with
      | none => simpa [routeProcLines, hb, hp] using ih acc
      | some d =>
        by_cases hcon : d.content = ""
        · simpa [routeProcLines, hb, hp, hcon] using ih acc
        · simp [routeProcLines, hb, hp, hcon, ih (acc ++ d.content)]

/-! ### route.ts read-loop lemmas -/

theorem routeDone_sentinel (createOk updateOk : Bool) (acc : String) :
    sentinelOnceLast (routeDone createOk updateOk acc).1 = true := by
  unfold routeDone
  repeat' split
  all_goals simp [routeCatch, sentinelOnceLast, isDoneFrame, doneFree]

theorem routeDone_endsTerminal (createOk updateOk : Bool) (acc : String) :
    endsTerminal (routeDone createOk updateOk acc).1 = true := by
  unfold routeDone
  repeat' split
  all_goals simp [routeCatch, endsTerminal, isDoneFrame, isTermStop]

theorem routeDone_acc (createOk updateOk : Bool) (acc : String) :
    (routeDone createOk updateOk acc).2.2 = acc := by
  unfold routeDone
  repeat' split
  all_goals rfl

theorem routeCatch_sentinel : sentinelOnceLast routeCatch = true := by
  simp [routeCatch, sentinelOnceLast, isDoneFrame, doneFree]

theorem routeCatch_endsTerminal : endsTerminal routeCatch = true := by
  simp [routeCatch, endsTerminal, isDoneFrame, isTermStop]

theorem routeLoop_sentinel (parse : ChatParse) (createOk updateOk : Bool)
    (events : List ReadEvent) (buf : List Char) (acc : String) :
    sentinelOnceLast (routeLoop parse createOk updateOk buf acc events).1 = true := by
  induction events generalizing buf acc with
  | nil => simpa [routeLoop] using routeDone_sentinel createOk updateOk acc
  | cons e rest ih =>
    cases e with
    | ioError => simpa [routeLoop] using routeCatch_sentinel
    | chunk c =>
      simp only [routeLoop]
      rw [sentinelOnceLast_append _ _ (routeProcLines_doneFree parse _ acc)]
      exact ih _ _

theorem routeLoop_endsTerminal (parse : ChatParse) (createOk updateOk : Bool)
    (events : List ReadEvent) (buf : List Char) (acc : String) :
    endsTerminal (routeLoop parse createOk updateOk buf acc events).1 = true := by
  induction events generalizing buf acc with
  | nil => simpa [routeLoop] using routeDone_endsTerminal createOk updateOk acc
  | cons e rest ih =>
    cases e with
    | ioError => simpa [routeLoop] using routeCatch_endsTerminal
    | chunk c => exact endsTerminal_append _ _ (ih _ _)

theorem routeLoop_metaFree (parse : ChatParse) (createOk updateOk : Bool)
    (events : List ReadEvent) (buf : List Char) (acc : String) :
    ((routeLoop parse createOk updateOk buf acc events).1.all
      fun f => !(isConvMetaFrame f)) = true := by
  induction events generalizing buf acc with
  | nil =>
    simp only [routeLoop]
    unfold routeDone
    repeat' split
    all_goals simp [routeCatch, isConvMetaFrame]
  | cons e rest ih =>
    cases e with
    | ioError => simp [routeLoop, routeCatch, isConvMetaFrame]
    | chunk c =>
      simp only [routeLoop, List.all_append, Bool.and_eq_true]
      exact ⟨routeProcLines_metaFree parse _ acc, ih _ _⟩

theorem routeLoop_rolesNone (parse : ChatParse) (createOk updateOk : Bool)
    (events : List ReadEvent) (buf : List Char) (acc : String) :
    rolesOk false (routeLoop parse createOk updateOk buf acc events).1 = true := by
  induction events generalizing buf acc with
  | nil =>
    simp only [routeLoop]
    unfold routeDone
    repeat' split
    all_goals simp [routeCatch, rolesOk]
  | cons e rest ih =>
    cases e with
    | ioError => simp [routeLoop, routeCatch, rolesOk]
    | chunk c =>
      simp only [routeLoop]
      refine rolesOk_append _ _ false (routeProcLines_rolesNone parse _ acc) ?_
      simpa using ih _ _

theorem routeLoop_persist_err (parse : ChatParse) (createOk updateOk : Bool)
    (events : List ReadEvent) (buf : List Char) (acc : String)
    (h : hasErr events = true) :
    (routeLoop parse createOk updateOk buf acc events).2.1 = none := by
  induction events generalizing buf acc with
  | nil => simp [hasErr] at h
  | cons e rest ih =>
    cases e with
    | ioError => simp [routeLoop]
    | chunk c =>
      have hr : hasErr rest = true := by simpa [hasErr, isErrEvent] using h
      simpa [routeLoop] using ih _ _ hr

theorem routeLoop_acc_bitsFree (parse : ChatParse) (createOk updateOk : Bool)
    (events : List ReadEvent) (buf : List Char) (acc : String) :
    (routeLoop parse createOk updateOk buf acc events).2.2 =
      (routeLoop parse true true buf acc events).2.2 := by
  induction events generalizing buf acc with
  | nil => simp [routeLoop, routeDone_acc]
  | cons e rest ih =>
    cases e with
    | ioError => simp [routeLoop]
    | chunk c => simpa [routeLoop] using ih _ _

theorem routeLoop_persist (parse : ChatParse) (createOk updateOk : Bool)
    (events : List ReadEvent) (buf : List Char) (acc : String)
    (h : hasErr events = false) :
    (routeLoop parse createOk updateOk buf acc events).2.1 =
      (if createOk
          && !(jsTrim (routeLoop parse createOk updateOk buf acc events).2.2 == "")
       then some (jsTrim (routeLoop parse createOk updateOk buf acc events).2.2)
       else none) := by
  induction events generalizing buf acc with
  | nil =>
    simp only [routeLoop]
    unfold routeDone
    repeat' split
    all_goals simp_all
  | cons e rest ih =>
    cases e with
    | ioError => simp [hasErr, isErrEvent] at h
    | chunk c =>
      have hr : hasErr rest = false := by simpa [hasErr, isErrEvent] using h
      simpa [routeLoop] using ih _ _ hr

theorem routeLoop_accContent (parse : ChatParse) (events : List ReadEvent)
    (buf : List Char) (acc : String) (h : hasErr events = false) :
    (routeLoop parse true true buf acc events).2.2 =
      acc ++ deltaConcat (routeLoop parse true true buf acc events).1 := by
  induction events generalizing buf acc with
  | nil =>
    simp only [routeLoop]
    unfold routeDone
    repeat' split
    all_goals simp_all [deltaConcat]
  | cons e rest ih =>
    cases e with
    | ioError => simp [hasErr, isErrEvent] at h
    | chunk c =>
      have hr : hasErr rest = false := by simpa [hasErr, isErrEvent] using h
      simp only [routeLoop]
      rw [deltaConcat_append, ← String.append_assoc,
        ← routeProcLines_acc parse (linesRem (buf ++ c)).1 acc]
      exact ih _ _ hr

/-! ### route.ts chunk-insensitivity -/

theorem routeLoop_chunksOnly (parse : ChatParse) (createOk updateOk : Bool)
    (chunks : List (List Char)) (buf : List Char) (acc : String) (hbuf : '\n' ∉ buf) :
    routeLoop parse createOk updateOk buf acc (chunks.map ReadEvent.chunk) =
      routeFlat parse createOk updateOk (buf ++ chunks.join) acc := by
  induction chunks generalizing buf acc with
  | nil =>
    simp [routeLoop, routeFlat, linesRem_of_no_newline buf hbuf, routeProcLines]
  | cons c cs ih =>
    have hj : buf ++ (c :: cs).join = (buf ++ c) ++ cs.join := by simp
    simp only [List.map_cons, routeLoop]
    rw [ih _ _ (rem_no_newline (buf ++ c)), hj]
    simp only [routeFlat, linesRem_append (buf ++ c) cs.join, routeProcLines_append]
    simp

/-! ### part_018 loop lemmas -/

theorem p18ProcLines_frames (parse : ChatParse) (ls : List (List Char)) (acc : String) :
    ∀ f ∈ (p18ProcLines parse ls acc).1, ∃ c fin, f = Frame.delta none c fin := by
  induction ls generalizing acc with
  | nil => simp [p18ProcLines]
  | cons l ls ih =>
    by_cases hb : isBlankLine l
    · simpa [p18ProcLines, hb] using ih acc
    · cases hp : parse l with
      | none => simpa [p18ProcLines, hb, hp] using ih acc
      | some d =>
        by_cases hcon : d.content = ""
        · by_cases hd : d.done
          · simp [p18ProcLines, hb, hp, hcon, hd]
          · simpa [p18ProcLines, hb, hp, hcon, hd] using ih acc
        · by_cases hd : d.done
          · intro f hf
            simp [p18ProcLines, hb, hp, hcon, hd] at hf
            exact ⟨d.content, _, hf⟩
          · intro f hf
            simp [p18ProcLines, hb, hp, hcon, hd] at hf
            rcases hf with rfl | hf
            · exact ⟨d.content, _, rfl⟩
            · exact ih _ f hf

theorem p18ProcLines_doneFree (parse : ChatParse) (ls : List (List Char)) (acc : String) :
    doneFree (p18ProcLines parse ls acc).1 = true := by
  rw [doneFree, List.all_eq_true]
  intro f hf
  obtain ⟨c, fin, rfl⟩ := p18ProcLines_frames parse ls acc f hf
  simp [isDoneFrame]

theorem p18ProcLines_metaFree (parse : ChatParse) (ls : List (List Char)) (acc : String) :
    ((p18ProcLines parse ls acc).1.all fun f => !(isConvMetaFrame f)) = true := by
  rw [List.all_eq_true]
  intro f hf
  obtain ⟨c, fin, rfl⟩ := p18ProcLines_frames parse ls acc f hf
  simp [isConvMetaFrame]

theorem p18ProcLines_rolesNone (parse : ChatParse) (ls : List (List Char)) (acc : String) :
    rolesOk false (p18ProcLines parse ls acc).1 = true := by
  induction ls generalizing acc with
  | nil => simp [p18ProcLines, rolesOk]
  | cons l ls ih =>
    by_cases hb : isBlankLine l
    · simpa [p18ProcLines, hb] using ih acc
    · cases hp : parse l with
      | none => simpa [p18ProcLines, hb, hp] using ih acc
      | some d =>
        by_cases hcon : d.content = ""
        · by_cases hd : d.done
          · simp [p18ProcLines, hb, hp, hcon, hd, rolesOk]
          · simpa [p18ProcLines, hb, hp, hcon, hd] using ih acc
        · by_cases hd : d.done
          · simp [p18ProcLines, hb, hp, hcon, hd, rolesOk]
          · simpa [p18ProcLines, hb, hp, hcon, hd, rolesOk] using ih (acc ++ d.content)

theorem p18Done_sentinel (createOk updateOk : Bool) (acc : String) :
    sentinelOnceLast (p18Done createOk updateOk acc).1 = true := by
  unfold p18Done
  split <;> simp [sentinelOnceLast, isDoneFrame, doneFree]

theorem p18Catch_sentinel : sentinelOnceLast p18Catch = true := by
  simp [p18Catch, sentinelOnceLast, isDoneFrame, doneFree]

theorem p18Loop_sentinel (parse : ChatParse) (createOk updateOk : Bool)
    (events : List ReadEvent) (buf : List Char) (acc : String) :
    sentinelOnceLast (p18Loop parse createOk updateOk buf acc events).1 = true := by
  induction events generalizing buf acc with
  | nil => simpa [p18Loop] using p18Done_sentinel createOk updateOk acc
  | cons e rest ih =>
    cases e with
    | ioError => simpa [p18Loop] using p18Catch_sentinel
    | chunk c =>
      simp only [p18Loop]
      rw [sentinelOnceLast_append _ _ (p18ProcLines_doneFree parse _ acc)]
      exact ih _ _

theorem p18Loop_metaFree (parse : ChatParse) (createOk updateOk : Bool)
    (events : List ReadEvent) (buf : List Char) (acc : String) :
    ((p18Loop parse createOk updateOk buf acc events).1.all
      fun f => !(isConvMetaFrame f)) = true := by
  induction events generalizing buf acc with
  | nil =>
    simp only [p18Loop]
    unfold p18Done
    split <;> simp [isConvMetaFrame]
  | cons e rest ih =>
    cases e with
    | ioError => simp [p18Loop, p18Catch, isConvMetaFrame]
    | chunk c =>
      simp only [p18Loop, List.all_append, Bool.and_eq_true]
      exact ⟨p18ProcLines_metaFree parse _ acc, ih _ _⟩

theorem p18Loop_rolesNone (parse : ChatParse) (createOk updateOk : Bool)
    (events : List ReadEvent) (buf : List Char) (acc : String) :
    rolesOk false (p18Loop parse createOk updateOk buf acc events).1 = true := by
  induction events generalizing buf acc with
  | nil =>
    simp only [p18Loop]
    unfold p18Done
    split <;> simp [rolesOk]
  | cons e rest ih =>
    cases e with
    | ioError => simp [p18Loop, p18Catch, rolesOk]
    | chunk c =>
      simp only [p18Loop]
      exact rolesOk_append _ _ false (p18ProcLines_rolesNone parse _ acc)
        (by simpa using ih (linesRem (buf ++ c)).2 (p18ProcLines parse (linesRem (buf ++ c)).1 acc).2)

theorem p18Loop_frames_bitsFree (parse : ChatParse) (createOk updateOk : Bool)
    (events : List ReadEvent) (buf : List Char) (acc : String) :
    (p18Loop parse createOk updateOk buf acc events).1 =
      (p18Loop parse true true buf acc events).1 := by
  induction events generalizing buf acc with
  | nil =>
    simp only [p18Loop]
    unfold p18Done
    split <;> rfl
  | cons e rest ih =>
    cases e with
    | ioError => simp [p18Loop]
    | chunk c => simp only [p18Loop]; rw [ih]

/-! ### stream.ts transform lemmas -/

theorem tProcLines_stopped_shape (parse : GenParse) (ls : List (List Char)) (isF : Bool)
    (h : (tProcLines parse isF ls).2.2 = true) :
    endsTerminal (tProcLines parse isF ls).1 = true
      ∧ sentinelOnceLast (tProcLines parse isF ls).1 = true := by
  induction ls generalizing isF with
  | nil => simp [tProcLines] at h
  | cons l ls ih =>
    by_cases hb : isBlankLine l
    · rw [tProcLines, if_pos hb] at h ⊢
      exact ih isF h
    · cases hp : parse l with
      | none =>
        rw [tProcLines, if_neg hb] at h ⊢
        rw [hp] at h ⊢
        exact ih isF h
      | some d =>
        by_cases hd : d.done
        · simp [tProcLines, hb, hp, hd, endsTerminal, sentinelOnceLast, isDoneFrame,
            isTermStop, doneFree]
        · rw [tProcLines, if_neg hb] at h ⊢
          rw [hp] at h ⊢
          simp only [hd, Bool.false_eq_true, if_false] at h ⊢
          have := ih false (by simpa using h)
          constructor
          · exact endsTerminal_append [_] _ this.1
          · rw [← List.singleton_append,
              sentinelOnceLast_append _ _ (by simp [doneFree, isDoneFrame])]
            exact this.2

theorem tProcLines_not_stopped_doneFree (parse : GenParse) (ls : List (List Char)) (isF : Bool)
    (h : (tProcLines parse isF ls).2.2 = false) :
    doneFree (tProcLines parse isF ls).1 = true := by
  induction ls generalizing isF with
  | nil => simp [tProcLines, doneFree]
  | cons l ls ih =>
    by_cases hb : isBlankLine l
    · rw [tProcLines, if_pos hb] at h ⊢
      exact ih isF h
    · cases hp : parse l with
      | none =>
        rw [tProcLines, if_neg hb] at h ⊢
        rw [hp] at h ⊢
        exact ih isF h
      | some d =>
        by_cases hd : d.done
        · simp [tProcLines, hb, hp, hd] at h
        · rw [tProcLines, if_neg hb] at h ⊢
          rw [hp] at h ⊢
          simp only [hd, Bool.false_eq_true, if_false] at h ⊢
          simp only [doneFree, List.all_cons, Bool.and_eq_true]
          exact ⟨by simp [isDoneFrame], ih false (by simpa using h)⟩

theorem tProcLines_isFirst (parse : GenParse) (ls : List (List Char)) (isF : Bool) :
    (tProcLines parse isF ls).2.1 =
      (isF && !((tProcLines parse isF ls).1.any isContentDelta)) := by
  induction ls generalizing isF with
  | nil => simp [tProcLines]
  | cons l ls ih =>
    by_cases hb : isBlankLine l
    · simpa [tProcLines, hb] using ih isF
    · cases hp : parse l with
      | none => simpa [tProcLines, hb, hp] using ih isF
      | some d =>
        by_cases hd : d.done
        · simp [tProcLines, hb, hp, hd, isContentDelta]
        · simp [tProcLines, hb, hp, hd, isContentDelta, ih false]

theorem tProcLines_rolesOk (parse : GenParse) (ls : List (List Char)) (isF : Bool) :
    rolesOk isF (tProcLines parse isF ls).1 = true := by
  induction ls generalizing isF with
  | nil => simp [tProcLines, rolesOk]
  | cons l ls ih =>
    by_cases hb : isBlankLine l
    · simpa [tProcLines, hb] using ih isF
    · cases hp : parse l with
      | none => simpa [tProcLines, hb, hp] using ih isF
      | some d =>
        by_cases hd : d.done
        · cases isF <;> simp [tProcLines, hb, hp, hd, rolesOk]
        · cases isF <;> simp [tProcLines, hb, hp, hd, rolesOk, ih false]

theorem tLoop_sentinel (parse : GenParse) (chunks : List (List Char))
    (isF : Bool) (buf : List Char) :
    sentinelOnceLast (tLoop parse isF buf (chunks.map ReadEvent.chunk)).1 = true := by
  induction chunks generalizing isF buf with
  | nil => simp [tLoop, sentinelOnceLast, isDoneFrame, doneFree]
  | cons c cs ih =>
    simp only [List.map_cons, tLoop]
    by_cases hst : (tProcLines parse isF (linesRem (buf ++ c)).1).2.2
    · simpa [hst] using (tProcLines_stopped_shape parse _ isF hst).2
    · simp only [hst, Bool.false_eq_true, if_false]
      rw [sentinelOnceLast_append _ _ (tProcLines_not_stopped_doneFree parse _ isF
        (by simpa using hst))]
      exact ih _ _

theorem tLoop_rolesOk (parse : GenParse) (events : List ReadEvent)
    (isF : Bool) (buf : List Char) :
    rolesOk isF (tLoop parse isF buf events).1 = true := by
  induction events generalizing isF buf with
  | nil => simp [tLoop, rolesOk]
  | cons e rest ih =>
    cases e with
    | ioError => simp [tLoop, rolesOk]
    | chunk c =>
      simp only [tLoop]
      by_cases hst : (tProcLines parse isF (linesRem (buf ++ c)).1).2.2
      · simpa [hst] using tProcLines_rolesOk parse _ isF
      · simp only [hst, Bool.false_eq_true, if_false]
        refine rolesOk_append _ _ isF (tProcLines_rolesOk parse _ isF) ?_
        rw [← tProcLines_isFirst parse _ isF]
        exact ih _ _

theorem tProcLines_append (parse : GenParse) (l1 l2 : List (List Char)) (isF : Bool) :
    tProcLines parse isF (l1 ++ l2) =
      (if (tProcLines parse isF l1).2.2 then tProcLines parse isF l1
       else ((tProcLines parse isF l1).1 ++
              (tProcLines parse (tProcLines parse isF l1).2.1 l2).1,
             (tProcLines parse (tProcLines parse isF l1).2.1 l2).2)) := by
  induction l1 generalizing isF with
  | nil => simp [tProcLines]
  | cons l ls ih =>
    by_cases hb : isBlankLine l
    · simpa [tProcLines, hb] using ih isF
    · cases hp : parse l with
      | none => simpa [tProcLines, hb, hp] using ih isF
      | some d =>
        by_cases hd : d.done
        · simp [tProcLines, hb, hp, hd]
        · by_cases hst : (tProcLines parse false ls).2.2
          · simp [tProcLines, hb, hp, hd, ih false, hst]
          · simp [tProcLines, hb, hp, hd, ih false, hst]

theorem tLoop_chunksOnly (parse : GenParse) (chunks : List (List Char)) (isF : Bool)
    (buf : List Char) (hbuf : '\n' ∉ buf) :
    tLoop parse isF buf (chunks.map ReadEvent.chunk) =
      tFlat parse isF (buf ++ chunks.join) := by
  induction chunks generalizing isF buf with
  | nil => simp [tLoop, tFlat, linesRem_of_no_newline buf hbuf, tProcLines]
  | cons c cs ih =>
    have hj : buf ++ (c :: cs).join = (buf ++ c) ++ cs.join := by simp
    simp only [List.map_cons, tLoop]
    rw [hj]
    by_cases hst : (tProcLines parse isF (linesRem (buf ++ c)).1).2.2
    · simp only [hst, if_true]
      unfold tFlat
      rw [linesRem_append (buf ++ c) cs.join, tProcLines_append]
      simp [hst]
    · simp only [hst, Bool.false_eq_true, if_false]
      rw [ih _ _ (rem_no_newline (buf ++ c))]
      unfold tFlat
      rw [linesRem_append (buf ++ c) cs.join, tProcLines_append]
      by_cases hst2 : (tProcLines parse (tProcLines parse isF (linesRem (buf ++ c)).1).2.1
          (linesRem ((linesRem (buf ++ c)).2 ++ cs.join)).1).2.2
      · simp [hst, hst2]
      · simp [hst, hst2]

theorem tLoop_stops_append (parse : GenParse) (chunks : List (List Char))
    (evs2 : List ReadEvent) (isF : Bool) (buf : List Char)
    (h : tStops parse isF buf chunks = true) :
    tLoop parse isF buf (chunks.map ReadEvent.chunk ++ evs2) =
      tLoop parse isF buf (chunks.map ReadEvent.chunk)
    ∧ endsTerminal (tLoop parse isF buf (chunks.map ReadEvent.chunk)).1 = true := by
  induction chunks generalizing isF buf with
  | nil => simp [tStops] at h
  | cons c cs ih =>
    by_cases hst : (tProcLines parse isF (linesRem (buf ++ c)).1).2.2
    · constructor
      · simp [tLoop, hst]
      · simpa [tLoop, hst] using (tProcLines_stopped_shape parse _ isF hst).1
    · have h2 : tStops parse (tProcLines parse isF (linesRem (buf ++ c)).1).2.1
          (linesRem (buf ++ c)).2 cs = true := by
        simpa [tStops, hst] using h
      obtain ⟨e1, e2⟩ := ih _ _ h2
      constructor
      · simp only [List.map_cons, List.cons_append, tLoop, hst, Bool.false_eq_true, if_false]
        simp [e1]
      · simp only [List.map_cons, tLoop, hst, Bool.false_eq_true, if_false]
        exact endsTerminal_append _ _ e2

/-! ### dropWhile helpers for metadata ordering -/

theorem dropWhile_append_of_all {α : Type} (p : α → Bool) (l1 l2 : List α)
    (h : ∀ a ∈ l1, p a = true) :
    (l1 ++ l2).dropWhile p = l2.dropWhile p := by
  induction l1 with
  | nil => rfl
  | cons a l ih =>
    rw [List.cons_append, List.dropWhile_cons, if_pos (h a (List.mem_cons_self a l))]
    exact ih (fun b hb => h b (List.mem_cons_of_mem a hb))

theorem mem_of_mem_dropWhile {α : Type} (p : α → Bool) (l : List α) (a : α)
    (h : a ∈ l.dropWhile p) : a ∈ l := by
  induction l with
  | nil => simpa using h
  | cons b l ih =>
    rw [List.dropWhile_cons] at h
    by_cases hb : p b
    · rw [if_pos hb] at h
      exact List.mem_cons_of_mem b (ih h)
    · rw [if_neg hb] at h
      exact h

/-! ### Prelude-frame lemmas -/

theorem routePre_doneFree (reqConvId : Option String) (newId : String)
    (cits : List Citation) : doneFree (routePre reqConvId newId cits) = true := by
  unfold routePre
  split <;> split <;> simp [doneFree, isDoneFrame]

theorem p18Pre_doneFree (reqConvId : Option String) (newId : String)
    (cits : List Citation) (isSearching : Bool) :
    doneFree (p18Pre reqConvId newId cits isSearching) = true := by
  unfold p18Pre
  repeat' split
  all_goals simp [doneFree, isDoneFrame]

theorem routePre_rolesNone (reqConvId : Option String) (newId : String)
    (cits : List Citation) : rolesOk false (routePre reqConvId newId cits) = true := by
  unfold routePre
  split <;> split <;> simp [rolesOk]

theorem p18Pre_rolesNone (reqConvId : Option String) (newId : String)
    (cits : List Citation) (isSearching : Bool) :
    rolesOk false (p18Pre reqConvId newId cits isSearching) = true := by
  unfold p18Pre
  repeat' split
  all_goals simp [rolesOk]

theorem routePre_deltaConcat (reqConvId : Option String) (newId : String)
    (cits : List Citation) : deltaConcat (routePre reqConvId newId cits) = "" := by
  unfold routePre
  split <;> split <;> simp [deltaConcat]

theorem routePre_noDelta (reqConvId : Option String) (newId : String)
    (cits : List Citation) :
    ∀ f ∈ routePre reqConvId newId cits, (!(isContentDelta f)) = true := by
  unfold routePre
  split <;> split <;> simp [isContentDelta]

theorem p18Pre_noDelta (reqConvId : Option String) (newId : String)
    (cits : List Citation) (isSearching : Bool) :
    ∀ f ∈ p18Pre reqConvId newId cits isSearching, (!(isContentDelta f)) = true := by
  unfold p18Pre
  repeat' split
  all_goals simp [isContentDelta]

theorem routeLoop_countMeta (parse : ChatParse) (createOk updateOk : Bool)
    (events : List ReadEvent) (buf : List Char) (acc : String) :
    (routeLoop parse createOk updateOk buf acc events).1.countP isConvMetaFrame = 0 :=
  List.countP_eq_zero.mpr (fun a ha => by
    have := (List.all_eq_true.mp
      (routeLoop_metaFree parse createOk updateOk events buf acc)) a ha
    simpa using this)

theorem p18Loop_countMeta (parse : ChatParse) (createOk updateOk : Bool)
    (events : List ReadEvent) (buf : List Char) (acc : String) :
    (p18Loop parse createOk updateOk buf acc events).1.countP isConvMetaFrame = 0 :=
  List.countP_eq_zero.mpr (fun a ha => by
    have := (List.all_eq_true.mp
      (p18Loop_metaFree parse createOk updateOk events buf acc)) a ha
    simpa using this)

/-! ## Claim theorems -/

/-- C1, counterexample.  The claim says the persisted assistant content
equals the exact concatenation of the emitted content deltas.  On the backend
line `\x7b"message":\x7b"content":"Hi "\x7d,"done":false\x7d` route.ts emits
the delta payload `"Hi "` but persists `assistantContent.trim()`, i.e.
`"Hi"` — the persisted record differs from the emitted concatenation. -/
theorem claim_C1_counterexample :
    (routeRun exParseHi (some "x") "c1" [] true true [ReadEvent.chunk exChunkHi]).2.1 ≠
      some (deltaConcat
        (routeRun exParseHi (some "x") "c1" [] true true [ReadEvent.chunk exChunkHi]).1) := by
  decide

/-- C1, amended.  In route.ts the persisted assistant message content is the
whitespace-TRIMMED final accumulator, stored exactly when the read had no
error, `prisma.message.create` succeeded, and the trim is non-empty — in
particular, when the create succeeds and the recency update then throws, the
message is persisted even though the client receives the apology terminal;
on a mid-stream read error nothing is persisted.  On an error-free read the
accumulator equals the concatenation of the turn's content deltas, i.e. the
deltas of the run in which both storage writes succeed. -/
theorem claim_C1_amended (parse : ChatParse) (reqConvId : Option String) (newId : String)
    (cits : List Citation) (createOk updateOk : Bool) (events : List ReadEvent) :
    ((routeRun parse reqConvId newId cits createOk updateOk events).2.1 =
      (if !(hasErr events) && createOk
          && !(jsTrim (routeRun parse reqConvId newId cits createOk updateOk events).2.2 == "")
       then some (jsTrim (routeRun parse reqConvId newId cits createOk updateOk events).2.2)
       else none))
    ∧ (hasErr events = false →
        (routeRun parse reqConvId newId cits createOk updateOk events).2.2 =
          deltaConcat (routeRun parse reqConvId newId cits true true events).1) := by
  constructor
  · show (routeLoop parse createOk updateOk [] "" events).2.1 =
      (if !(hasErr events) && createOk
          && !(jsTrim (routeLoop parse createOk updateOk [] "" events).2.2 == "")
       then some (jsTrim (routeLoop parse createOk updateOk [] "" events).2.2)
       else none)
    by_cases he : hasErr events
    · rw [routeLoop_persist_err parse createOk updateOk events [] "" he]
      simp [he]
    · have hf : hasErr events = false := by simpa using he
      rw [routeLoop_persist parse createOk updateOk events [] "" hf, hf]
      simp
  · intro hf
    show (routeLoop parse createOk updateOk [] "" events).2.2 = _
    rw [routeLoop_acc_bitsFree parse createOk updateOk events [] "",
      routeLoop_accContent parse events [] "" hf]
    have hconc :
        deltaConcat (routePre reqConvId newId cits ++ (routeLoop parse true true [] "" events).1) =
          deltaConcat (routeLoop parse true true [] "" events).1 := by
      rw [deltaConcat_append, routePre_deltaConcat, String.empty_append]
    show _ = deltaConcat (routePre reqConvId newId cits ++ (routeLoop parse true true [] "" events).1)
    rw [hconc, String.empty_append]

/-- C1, witness: one content chunk, no read error, create succeeding while
the recency update fails — the accumulator still equals the clean run's
delta concatenation. -/
theorem claim_C1_witness :
    hasErr [ReadEvent.chunk exChunkHi] = false
    ∧ (routeRun exParseHi (some "x") "c1" [] true false [ReadEvent.chunk exChunkHi]).2.2 =
        deltaConcat (routeRun exParseHi (some "x") "c1" [] true true
          [ReadEvent.chunk exChunkHi]).1 :=
  ⟨by decide,
   (claim_C1_amended exParseHi (some "x") "c1" [] true false
     [ReadEvent.chunk exChunkHi]).2 (by decide)⟩

/-- C2, counterexample.  The claim says every input — including mid-stream
read errors — yields exactly one terminal sentinel.  When the backend read
rejects, `OllamaToOpenAIStream.transform` reaches its catch, which calls
`controller.error` without emitting anything: no sentinel at all. -/
theorem claim_C2_counterexample :
    sentinelOnceLast (transformRun exGenParseNone [ReadEvent.ioError]).1 = false
    ∧ (transformRun exGenParseNone [ReadEvent.ioError]).2 = true := by
  decide

/-- C2, amended.  The completions routes (route.ts and part_018) emit exactly
one terminal sentinel, as the last frame, on every input — malformed lines,
early done flags, mid-stream read errors and storage failures included.
`OllamaToOpenAIStream.transform` does so on every input free of read errors;
on a read error it emits no sentinel (it errors the stream instead). -/
theorem claim_C2_amended (parse : ChatParse) (reqConvId : Option String) (newId : String)
    (cits : List Citation) (createOk updateOk : Bool) (events : List ReadEvent)
    (parse2 : ChatParse) (reqConvId2 : Option String) (newId2 : String)
    (cits2 : List Citation) (isSearching : Bool) (createOk2 updateOk2 : Bool)
    (events2 : List ReadEvent) (gparse : GenParse) (chunks : List (List Char)) :
    sentinelOnceLast (routeRun parse reqConvId newId cits createOk updateOk events).1 = true
    ∧ sentinelOnceLast
        (p18Run parse2 reqConvId2 newId2 cits2 isSearching createOk2 updateOk2 events2).1 = true
    ∧ sentinelOnceLast (transformRun gparse (chunks.map ReadEvent.chunk)).1 = true := by
  refine ⟨?_, ?_, ?_⟩
  · show sentinelOnceLast (routePre reqConvId newId cits ++ _) = true
    rw [sentinelOnceLast_append _ _ (routePre_doneFree reqConvId newId cits)]
    exact routeLoop_sentinel parse createOk updateOk events [] ""
  · show sentinelOnceLast (p18Pre reqConvId2 newId2 cits2 isSearching ++ _) = true
    rw [sentinelOnceLast_append _ _ (p18Pre_doneFree reqConvId2 newId2 cits2 isSearching)]
    exact p18Loop_sentinel parse2 createOk2 updateOk2 events2 [] ""
  · exact tLoop_sentinel gparse chunks true []

/-- C3, confirmed.  For any splitting of the backend bytes into chunks
(including splits mid-line), both the route.ts inline transcoder and
`OllamaToOpenAIStream.transform` produce exactly the same run — frames (hence
content deltas), persistence and accumulator — as when the whole response
arrives as one single chunk. -/
theorem claim_C3 (parse : ChatParse) (gparse : GenParse) (reqConvId : Option String)
    (newId : String) (cits : List Citation) (createOk updateOk : Bool)
    (chunks : List (List Char)) :
    routeRun parse reqConvId newId cits createOk updateOk (chunks.map ReadEvent.chunk) =
      routeRun parse reqConvId newId cits createOk updateOk [ReadEvent.chunk chunks.join]
    ∧ transformRun gparse (chunks.map ReadEvent.chunk) =
      transformRun gparse [ReadEvent.chunk chunks.join] := by
  constructor
  · unfold routeRun
    rw [routeLoop_chunksOnly parse createOk updateOk chunks [] "" (by simp)]
    rw [show [ReadEvent.chunk chunks.join] = [chunks.join].map ReadEvent.chunk from rfl]
    rw [routeLoop_chunksOnly parse createOk updateOk [chunks.join] [] "" (by simp)]
    simp
  · unfold transformRun
    rw [tLoop_chunksOnly gparse chunks true [] (by simp)]
    rw [show [ReadEvent.chunk chunks.join] = [chunks.join].map ReadEvent.chunk from rfl]
    rw [tLoop_chunksOnly gparse [chunks.join] true [] (by simp)]
    simp

/-- C4, confirmed.  `searchWeb` walks the fixed provider list in order and
returns the result set of the first provider resolving with at least one
result, having invoked exactly the providers up to that one; when every
provider throws or yields zero results it returns the empty list after
invoking them all — a normal return, never a propagated exception (each
provider call sits in its own try/catch, so the function is total). -/
theorem claim_C4 (outcomes : List ProviderOutcome) :
    searchWebRun outcomes =
      (match firstHit outcomes with
       | some p => (p.2, p.1 + 1)
       | none => ([], outcomes.length)) := by
  induction outcomes with
  | nil => rfl
  | cons o rest ih =>
    cases o with
    | err =>
      simp only [searchWebRun, firstHit, ih]
      cases h : firstHit rest <;> simp [h]
    | ok rs =>
      by_cases h : rs.length > 0
      · simp [searchWebRun, firstHit, h]
      · simp only [searchWebRun, firstHit, h, if_neg h, ih]
        cases hf : firstHit rest <;> simp [hf]

/-- C5, counterexample.  The claim says a parsed `done=true` line terminates
the transcoder's read loop, with no further backend lines processed.  The
route.ts inline loop has no such termination: after the done-flagged `A` line
it still processes the following `B` line and emits its delta. -/
theorem claim_C5_counterexample :
    (routeRun exParseAB (some "x") "c1" [] true true [ReadEvent.chunk exChunkAB]).1 =
      [Frame.delta none "A" (some "stop"), Frame.delta none "B" none,
       Frame.stop, Frame.done] := by
  decide

/-- C5, amended.  In `OllamaToOpenAIStream.transform`, a parsed line with a
truthy `done` flag terminates the read loop: the output is unchanged by any
further reader events, and it ends with a `finish_reason: 'stop'` frame (the
done line's own frame) immediately followed by the terminal sentinel.  The
route.ts inline loop instead ignores the flag for termination (part_018 only
skips the remaining lines of the current chunk). -/
theorem claim_C5_amended (parse : GenParse) (chunks : List (List Char))
    (evs2 : List ReadEvent) (h : tStops parse true [] chunks = true) :
    transformRun parse (chunks.map ReadEvent.chunk ++ evs2) =
      transformRun parse (chunks.map ReadEvent.chunk)
    ∧ endsTerminal (transformRun parse (chunks.map ReadEvent.chunk)).1 = true := by
  unfold transformRun
  exact tLoop_stops_append parse chunks evs2 true [] h

/-- C5, witness: one chunk holding the done-flagged line
`\x7b"response":"A","done":true\x7d`; appending a further chunk does not
change the output, which ends with the stop frame and the sentinel. -/
theorem claim_C5_witness :
    tStops exGenParseA true [] [exGenLineA ++ ['\n']] = true
    ∧ (transformRun exGenParseA
          ([exGenLineA ++ ['\n']].map ReadEvent.chunk ++
            [ReadEvent.chunk (exGenLineA ++ ['\n'])]) =
        transformRun exGenParseA ([exGenLineA ++ ['\n']].map ReadEvent.chunk)
      ∧ endsTerminal
          (transformRun exGenParseA ([exGenLineA ++ ['\n']].map ReadEvent.chunk)).1 = true) :=
  ⟨by decide,
   claim_C5_amended exGenParseA [exGenLineA ++ ['\n']]
     [ReadEvent.chunk (exGenLineA ++ ['\n'])] (by decide)⟩

/-- C6, counterexample.  The claim says a persistence failure never changes
the client-visible outcome.  In route.ts neither storage write is guarded:
here the create succeeds and the recency update throws, reaching the outer
catch, which emits an apology content delta instead of the empty final
chunk — the visible frames differ from the success run. -/
theorem claim_C6_counterexample :
    (routeRun exParseHi (some "x") "c1" [] true false [ReadEvent.chunk exChunkHi]).1 ≠
      (routeRun exParseHi (some "x") "c1" [] true true [ReadEvent.chunk exChunkHi]).1 := by
  decide

/-- C6, amended.  In part_018 the persistence pair is wrapped in its own
try/catch, so any storage failure (create or recency update) leaves the
client-visible frames exactly those of the success run.  In route.ts the
failure reaches the outer catch; the client still receives a
`finish_reason: 'stop'` frame and the terminal sentinel (the stream always
completes), but as an apology delta, so the visible outcome differs. -/
theorem claim_C6_amended (parse : ChatParse) (reqConvId : Option String) (newId : String)
    (cits : List Citation) (isSearching : Bool) (events : List ReadEvent)
    (createOk updateOk : Bool) :
    (p18Run parse reqConvId newId cits isSearching createOk updateOk events).1 =
      (p18Run parse reqConvId newId cits isSearching true true events).1
    ∧ endsTerminal (routeRun parse reqConvId newId cits createOk updateOk events).1 = true := by
  constructor
  · show p18Pre reqConvId newId cits isSearching ++ _ =
      p18Pre reqConvId newId cits isSearching ++ _
    rw [p18Loop_frames_bitsFree]
  · exact endsTerminal_append _ _ (routeLoop_endsTerminal parse createOk updateOk events [] "")

/-- C7, confirmed.  When the inbound request's last message has role `user`,
route.ts persists that user message strictly before the backend dispatch is
attempted (and a failed dispatch returns 503 after the persist, so the user
message is stored even then). -/
theorem claim_C7 (reqConvId : Option String) (lastRole : String) (doSearch : Bool)
    (h : lastRole = "user") :
    Effect.persistUser ∈ routePreludeTrace reqConvId lastRole doSearch
    ∧ (routePreludeTrace reqConvId lastRole doSearch).indexOf Effect.persistUser <
        (routePreludeTrace reqConvId lastRole doSearch).indexOf Effect.dispatchFx
    ∧ routeDispatchStatus false = some 503 := by
  subst h
  cases hc : convIdFalsy reqConvId <;> cases doSearch <;>
    simp [routePreludeTrace, hc, routeDispatchStatus]

/-- C7, witness: a request with no conversation id, last role `user`, search
heuristic firing. -/
theorem claim_C7_witness :
    ("user" : String) = "user"
    ∧ (Effect.persistUser ∈ routePreludeTrace none "user" true
      ∧ (routePreludeTrace none "user" true).indexOf Effect.persistUser <
          (routePreludeTrace none "user" true).indexOf Effect.dispatchFx
      ∧ routeDispatchStatus false = some 503) :=
  ⟨rfl, claim_C7 none "user" true rfl⟩

/-- C8, counterexample.  The claim says the first content delta of every turn
carries `role: 'assistant'`.  The live route.ts transcoder never writes a
role field into any delta: on a content-bearing turn its first delta's role
is absent. -/
theorem claim_C8_counterexample :
    firstDeltaRole
      (routeRun exParseHi (some "x") "c1" [] true true [ReadEvent.chunk exChunkHi]).1 =
      some none := by
  decide

/-- C8, amended.  `OllamaToOpenAIStream.transform` marks the first parsed
delta of the stream with `role: 'assistant'` and omits the role on every
later delta; the inline transcoders of route.ts and part_018 emit all their
deltas without any role field. -/
theorem claim_C8_amended (gparse : GenParse) (events : List ReadEvent)
    (parse : ChatParse) (reqConvId : Option String) (newId : String)
    (cits : List Citation) (createOk updateOk : Bool) (revents : List ReadEvent)
    (parse2 : ChatParse) (reqConvId2 : Option String) (newId2 : String)
    (cits2 : List Citation) (isSearching : Bool) (createOk2 updateOk2 : Bool)
    (pevents : List ReadEvent) :
    rolesOk true (transformRun gparse events).1 = true
    ∧ rolesOk false (routeRun parse reqConvId newId cits createOk updateOk revents).1 = true
    ∧ rolesOk false
        (p18Run parse2 reqConvId2 newId2 cits2 isSearching createOk2 updateOk2 pevents).1 = true := by
  refine ⟨tLoop_rolesOk gparse events true [], ?_, ?_⟩
  · show rolesOk false (routePre reqConvId newId cits ++ _) = true
    exact rolesOk_append _ _ false (routePre_rolesNone reqConvId newId cits)
      (by simpa using routeLoop_rolesNone parse createOk updateOk revents [] "")
  · show rolesOk false (p18Pre reqConvId2 newId2 cits2 isSearching ++ _) = true
    exact rolesOk_append _ _ false (p18Pre_rolesNone reqConvId2 newId2 cits2 isSearching)
      (by simpa using p18Loop_rolesNone parse2 createOk2 updateOk2 pevents [] "")

/-- C9, confirmed.  Any message matching one of the high-precision
`highConfidencePatterns` regexes of tool-detection.ts (explicit word-bounded
temporal words, direct weather/score/price phrasings, …) makes
`detectSearchIntent` return `shouldSearch = true` with the fixed high
confidence 0.9, before any lower tier is consulted. -/
theorem claim_C9 (message : String) (history : List ChatMessage)
    (h : highConfidenceTest message = true) :
    (detectSearchIntent message history).shouldSearch = true
    ∧ (detectSearchIntent message history).confidence = 9 / 10 := by
  simp [detectSearchIntent, analyzeSearchNeed, h]

/-- C9, witness: the spec's own example, `"What's the weather in Venice
today?"` with no history (it matches both the
`what.{0,10}(weather|temperature|forecast)` pattern and the word-bounded
`today` pattern). -/
theorem claim_C9_witness :
    highConfidenceTest "What's the weather in Venice today?" = true
    ∧ ((detectSearchIntent "What's the weather in Venice today?" []).shouldSearch = true
      ∧ (detectSearchIntent "What's the weather in Venice today?" []).confidence = 9 / 10) :=
  ⟨by decide, claim_C9 "What's the weather in Venice today?" [] (by decide)⟩

/-- C10, confirmed.  In both routes, a conversation-id metadata frame is
emitted exactly when the request's `conversationId` was falsy (absent or
empty — precisely the turns that create the conversation, whose fresh id is
non-empty), and every such frame precedes the first content delta of the
turn: no conversation-id frame occurs from the first delta onward. -/
theorem claim_C10 (parse : ChatParse) (reqConvId : Option String) (newId : String)
    (cits : List Citation) (createOk updateOk : Bool) (events : List ReadEvent)
    (parse2 : ChatParse) (cits2 : List Citation) (isSearching : Bool)
    (createOk2 updateOk2 : Bool) (events2 : List ReadEvent) (hnew : newId ≠ "") :
    ((routeRun parse reqConvId newId cits createOk updateOk events).1.countP isConvMetaFrame =
        if convIdFalsy reqConvId then 1 else 0)
    ∧ (((routeRun parse reqConvId newId cits createOk updateOk events).1.dropWhile
          (fun f => !(isContentDelta f))).countP isConvMetaFrame = 0)
    ∧ ((p18Run parse2 reqConvId newId cits2 isSearching createOk2 updateOk2 events2).1.countP
          isConvMetaFrame = if convIdFalsy reqConvId then 1 else 0)
    ∧ (((p18Run parse2 reqConvId newId cits2 isSearching createOk2 updateOk2 events2).1.dropWhile
          (fun f => !(isContentDelta f))).countP isConvMetaFrame = 0) := by
  have hbeq : (newId == "") = false := beq_eq_false_iff_ne.mpr hnew
  refine ⟨?_, ?_, ?_, ?_⟩
  · show ((routePre reqConvId newId cits ++ _).countP isConvMetaFrame) = _
    rw [List.countP_append, routeLoop_countMeta]
    unfold routePre
    cases hc : convIdFalsy reqConvId <;> by_cases hcit : cits.length > 0 <;>
      simp [hc, hbeq, hcit, isConvMetaFrame, List.countP_cons]
  · show (((routePre reqConvId newId cits ++ _).dropWhile _).countP isConvMetaFrame) = _
    rw [dropWhile_append_of_all _ _ _ (routePre_noDelta reqConvId newId cits)]
    exact List.countP_eq_zero.mpr (fun a ha => by
      have ha2 := mem_of_mem_dropWhile _ _ a ha
      have := (List.all_eq_true.mp
        (routeLoop_metaFree parse createOk updateOk events [] "")) a ha2
      simpa using this)
  · show ((p18Pre reqConvId newId cits2 isSearching ++ _).countP isConvMetaFrame) = _
    rw [List.countP_append, p18Loop_countMeta]
    unfold p18Pre
    cases hc : convIdFalsy reqConvId <;> by_cases hcit : cits2.length > 0 <;>
      cases isSearching <;>
      simp [hc, hbeq, hcit, isConvMetaFrame, List.countP_cons]
  · show (((p18Pre reqConvId newId cits2 isSearching ++ _).dropWhile _).countP
        isConvMetaFrame) = _
    rw [dropWhile_append_of_all _ _ _ (p18Pre_noDelta reqConvId newId cits2 isSearching)]
    exact List.countP_eq_zero.mpr (fun a ha => by
      have ha2 := mem_of_mem_dropWhile _ _ a ha
      have := (List.all_eq_true.mp
        (p18Loop_metaFree parse2 createOk2 updateOk2 events2 [] "")) a ha2
      simpa using this)

/-- C10, witness: a request without a conversation id and the created id
`"c1"`. -/
theorem claim_C10_witness :
    ("c1" : String) ≠ ""
    ∧ (((routeRun exParseHi none "c1" [] true true []).1.countP isConvMetaFrame =
          if convIdFalsy none then 1 else 0)
      ∧ (((routeRun exParseHi none "c1" [] true true []).1.dropWhile
            (fun f => !(isContentDelta f))).countP isConvMetaFrame = 0)
      ∧ ((p18Run exParseHi none "c1" [] false true true []).1.countP isConvMetaFrame =
          if convIdFalsy none then 1 else 0)
      ∧ (((p18Run exParseHi none "c1" [] false true true []).1.dropWhile
            (fun f => !(isContentDelta f))).countP isConvMetaFrame = 0)) :=
  ⟨by decide,
   claim_C10 exParseHi none "c1" [] true true [] exParseHi [] false true true [] (by decide)⟩

end AIChat
